import Mathlib

/-!
Verification of the `stdx::retain_ptr` intrusive smart pointer
(src/include/memory.h, src/include/utils.h).

The embedding models the managed objects as a heap of reference-counted
cells addressed by natural numbers.  A raw pointer is `Option Nat`
(`none` is `nullptr`), and a `retain_ptr` is a structure holding such a
stored pointer (field `m_ptr`, as in the source).  The default traits
operations `retain_traits::increment`, `retain_traits::decrement` and
`retain_traits::use_count` (memory.h lines 182-207, and the identical
counting arithmetic of the atomic variant at lines 151-177) act on the
heap; `delete` is modelled by marking the cell dead and counting the
disposal in a ghost field `disposals`.  The field `ty` records the
dynamic type of the object, used to model `dynamic_cast`.
-/

namespace RP

/-- A reference-counted cell: `count` is the intrusive counter
(`reference_count<T>::m_count`, initialised to 1 at line 110), `alive`
records whether the object has been deleted, `disposals` is a ghost
counter of how many times `delete` ran on the cell, and `ty` is the
dynamic type of the object (used by the model of `dynamic_cast`). -/
structure Obj where
  count : Int
  alive : Bool
  disposals : Nat
  ty : Nat
deriving DecidableEq

/-- The heap: one counted cell per address. -/
abbrev Heap := Nat → Obj

/-- A raw pointer: an address or `nullptr`. -/
abbrev Ptr := Option Nat

/-- The handle type: exactly one stored raw pointer (memory.h line 634). -/
structure RetainPtr where
  m_ptr : Ptr
deriving DecidableEq

/-- Model of `retain_traits::increment` (memory.h lines 182-185):
`++ptr->m_count`. -/
def increment (h : Heap) (a : Nat) : Heap :=
  fun x => if x = a then { h a with count := (h a).count + 1 } else h x

/-- Model of `delete t_ptr`: the destructor runs and the storage dies;
the ghost field `disposals` counts the deletions. -/
def dispose (o : Obj) : Obj :=
  { o with alive := false, disposals := o.disposals + 1 }

/-- Model of `retain_traits::decrement` (memory.h lines 190-199):
`if (--ptr->m_count == 0) delete t_ptr;`. -/
def decrement (h : Heap) (a : Nat) : Heap :=
  fun x =>
    if x = a then
      if (h a).count - 1 = 0 then dispose { h a with count := (h a).count - 1 }
      else { h a with count := (h a).count - 1 }
    else h x

/-- Helper for the `if (*this) traits_type::increment(this->get())`
pattern: increment when the pointer is non-null. -/
def incIfSome (h : Heap) (p : Ptr) : Heap :=
  match p with
  | some a => increment h a
  | none => h

/-- Helper for the `if (*this) traits_type::decrement(this->get())`
pattern: decrement when the pointer is non-null. -/
def decIfSome (h : Heap) (p : Ptr) : Heap :=
  match p with
  | some a => decrement h a
  | none => h

/-- `retain_ptr(pointer p, adopt_object_t)` (memory.h lines 289-292):
store `p`, leave the count untouched. -/
def adoptCtor (p : Ptr) (h : Heap) : RetainPtr × Heap :=
  (⟨p⟩, h)

/-- `retain_ptr(pointer p, retain_object_t)` (memory.h lines 300-307)
for non-throwing traits: delegate to the adopt constructor, then
increment when non-null. -/
def retainCtor (p : Ptr) (h : Heap) : RetainPtr × Heap :=
  (⟨p⟩, incIfSome h p)

/-- `explicit retain_ptr(pointer p)` (memory.h lines 316-319): delegate
per `traits_type::default_action`; the default `retain_traits` declares
`default_action = adopt_object_t` (line 146), custom traits may declare
`retain_object_t` instead.  `defaultAdopt` selects the branch. -/
def rawCtor (defaultAdopt : Bool) (p : Ptr) (h : Heap) : RetainPtr × Heap :=
  if defaultAdopt then adoptCtor p h else retainCtor p h

/-- Copy constructor (memory.h lines 326-333): store the pointer of
`other` and increment when non-null. -/
def copyCon (other : RetainPtr) (h : Heap) : RetainPtr × Heap :=
  (⟨other.m_ptr⟩, incIfSome h other.m_ptr)

/-- `release()` (memory.h lines 582-588): return the stored pointer,
clear the stored pointer, and touch no count.  Result components:
returned raw pointer, the emptied source, the unchanged heap. -/
def releaseOp (x : RetainPtr) (h : Heap) : Ptr × RetainPtr × Heap :=
  (x.m_ptr, ⟨none⟩, h)

/-- Move constructor (memory.h lines 340-343): `m_ptr(other.release())`.
Result components: the new pointer, the emptied source, the heap. -/
def moveCon (other : RetainPtr) (h : Heap) : RetainPtr × RetainPtr × Heap :=
  ((⟨other.m_ptr⟩ : RetainPtr), (⟨none⟩ : RetainPtr), h)

/-- Destructor (memory.h lines 497-503): decrement when owning. -/
def destructOp (x : RetainPtr) (h : Heap) : Heap :=
  decIfSome h x.m_ptr

/-- `swap` (memory.h lines 627-631): exchange the stored pointers. -/
def swapOp (x y : RetainPtr) : RetainPtr × RetainPtr :=
  ((⟨y.m_ptr⟩ : RetainPtr), (⟨x.m_ptr⟩ : RetainPtr))

/-- Copy assignment (memory.h lines 399-414).  `sameObject` models the
`&other != this` guard (it is `true` exactly when `other` and `*this`
are the same C++ object, in which case the body is skipped; then the
two values necessarily coincide).  Otherwise: increment the pointer of
`other` first, then decrement the current one, then store. -/
def copyAssign (self other : RetainPtr) (sameObject : Bool) (h : Heap) :
    RetainPtr × Heap :=
  if sameObject then (self, h)
  else
    let h1 := incIfSome h other.m_ptr
    let h2 := decIfSome h1 self.m_ptr
    ((⟨other.m_ptr⟩ : RetainPtr), h2)

/-- Default-constructed handle (memory.h line 282): retains nothing. -/
def emptyPtr : RetainPtr := ⟨none⟩

/-- Move assignment (memory.h lines 447-454).  Behind the
`&other != this` guard the body is
`retain_ptr(std::move(other)).swap(*this);`: a temporary takes the
pointer of `other`, is swapped with `*this`, and its destruction
decrements the previous target of `*this`.  Result components: the new
`*this`, the emptied `other`, the heap. -/
def moveAssign (self other : RetainPtr) (sameObject : Bool) (h : Heap) :
    RetainPtr × RetainPtr × Heap :=
  if sameObject then (self, other, h)
  else
    let m := moveCon other h
    let s := swapOp m.1 (⟨self.m_ptr⟩ : RetainPtr)
    (s.2, m.2.1, destructOp s.1 m.2.2)

/-! ### Observers, comparison operators and hash support -/

/-- `explicit operator bool()` (memory.h lines 552-556):
`get() != nullptr`. -/
def boolOp (x : RetainPtr) : Bool :=
  decide (x.m_ptr ≠ none)

/-- `operator==(x, y)` (memory.h lines 711-716): compares the stored
raw pointers only. -/
def eqOp (x y : RetainPtr) : Bool :=
  decide (x.m_ptr = y.m_ptr)

/-- `operator!=(x, y)` (memory.h lines 718-723). -/
def neOp (x y : RetainPtr) : Bool :=
  decide (x.m_ptr ≠ y.m_ptr)

/-- `operator<(x, y)` (memory.h lines 725-730): `std::less` applied to
the stored raw pointers; the implementation-defined pointer order is a
parameter `less`. -/
def ltOp (less : Ptr → Ptr → Bool) (x y : RetainPtr) : Bool :=
  less x.m_ptr y.m_ptr

/-- `operator<=(x, y)` (memory.h lines 732-737): `!(y < x)`. -/
def leOp (less : Ptr → Ptr → Bool) (x y : RetainPtr) : Bool :=
  !(ltOp less y x)

/-- `operator>(x, y)` (memory.h lines 739-744): `y < x`. -/
def gtOp (less : Ptr → Ptr → Bool) (x y : RetainPtr) : Bool :=
  ltOp less y x

/-- `operator>=(x, y)` (memory.h lines 746-751): `!(x < y)`. -/
def geOp (less : Ptr → Ptr → Bool) (x y : RetainPtr) : Bool :=
  !(ltOp less x y)

/-- `operator==(x, nullptr)` (memory.h lines 753-758): `!x`. -/
def eqNullOp (x : RetainPtr) : Bool :=
  !(boolOp x)

/-- `operator==(nullptr, y)` (memory.h lines 760-765): `!y`. -/
def nullEqOp (y : RetainPtr) : Bool :=
  !(boolOp y)

/-- `operator!=(x, nullptr)` (memory.h lines 767-772):
`static_cast<bool>(x)`. -/
def neNullOp (x : RetainPtr) : Bool :=
  boolOp x

/-- `operator!=(nullptr, y)` (memory.h lines 774-779). -/
def nullNeOp (y : RetainPtr) : Bool :=
  boolOp y

/-- `std::hash<stdx::retain_ptr<T, Traits>>::do_hash` (memory.h lines
896-900): hash the stored raw pointer with `std::hash<pointer>`,
modelled by the parameter `hf`. -/
def hashOp (hf : Ptr → Nat) (x : RetainPtr) : Nat :=
  hf x.m_ptr

/-! ### use_count and the saturating cast

`clamp_cast` (utils.h lines 127-177) is modelled on the branch the
counter types exercise: both `std::ptrdiff_t` and any custom signed
`size_type` are signed integral, so the code either takes the
`is_same` shortcut, or (when the source range is wider) clamps through
`clamp_cast_impl` (utils.h lines 76-115), or narrows directly when the
target range is at least as wide. -/

/-- A signed integer type of the model, given by its value range. -/
structure SignedIntType where
  lo : Int
  hi : Int
deriving DecidableEq

/-- `std::ptrdiff_t` on the usual 64-bit platform. -/
def ptrdiffT : SignedIntType :=
  ⟨-(2 ^ 63), 2 ^ 63 - 1⟩

/-- `detail::clamp_cast_impl` (utils.h lines 76-115), branch for equal
signedness: saturate at the bounds of the target type. -/
def clamp_cast_impl (target : SignedIntType) (v : Int) : Int :=
  if v > target.hi then target.hi
  else if v < target.lo then target.lo
  else v

/-- `clamp_cast` (utils.h lines 127-177) restricted to signed integral
source and target: identical types pass through, a wider source is
clamped, a narrower-or-equal source is converted directly. -/
def clamp_cast (target source : SignedIntType) (v : Int) : Int :=
  if source = target then v
  else if source.hi > target.hi then clamp_cast_impl target v
  else v

/-- `use_count()` (memory.h lines 564-575).  `hasUC` models the
compile-time `has_use_count_v` test (whether the traits type provides
`use_count` for the pointer type), `szTy` the `size_type` the traits
report counts in.  When supported: `0` for a null stored pointer,
otherwise `clamp_cast<std::ptrdiff_t>` of the count the traits report
(the default traits return `m_count`, memory.h lines 204-207). -/
def use_count (hasUC : Bool) (szTy : SignedIntType) (x : RetainPtr) (h : Heap) : Int :=
  if hasUC then
    match x.m_ptr with
    | some a => clamp_cast ptrdiffT szTy ((h a).count)
    | none => 0
  else -1

/-! ### Cast free functions

The language-level `static_cast` / `const_cast` / `reinterpret_cast` on
a raw pointer preserve the identity of the pointed-to object (the model
has no multiple-inheritance offsets), so the cast raw pointer is the
same address; a null pointer stays null. -/

/-- `static_pointer_cast` on an lvalue (memory.h lines 644-650):
`retain_ptr<T, Traits>(static_cast<...>(other.get()), retain_object)`. -/
def static_pointer_cast_lv (other : RetainPtr) (h : Heap) : RetainPtr × Heap :=
  retainCtor other.m_ptr h

/-- `static_pointer_cast` on an rvalue (memory.h lines 652-657):
`retain_ptr<T, Traits>(static_cast<...>(other.release()))` through the
single-argument constructor.  Result components: the new handle, the
emptied source, the heap. -/
def static_pointer_cast_rv (defaultAdopt : Bool) (other : RetainPtr) (h : Heap) :
    RetainPtr × RetainPtr × Heap :=
  let r := releaseOp other h
  let c := rawCtor defaultAdopt r.1 r.2.2
  (c.1, r.2.1, c.2)

/-- `const_pointer_cast` on an lvalue (memory.h lines 659-665). -/
def const_pointer_cast_lv (other : RetainPtr) (h : Heap) : RetainPtr × Heap :=
  retainCtor other.m_ptr h

/-- `const_pointer_cast` on an rvalue (memory.h lines 667-672). -/
def const_pointer_cast_rv (defaultAdopt : Bool) (other : RetainPtr) (h : Heap) :
    RetainPtr × RetainPtr × Heap :=
  let r := releaseOp other h
  let c := rawCtor defaultAdopt r.1 r.2.2
  (c.1, r.2.1, c.2)

/-- `reinterpret_pointer_cast` on an lvalue (memory.h lines 696-702). -/
def reinterpret_pointer_cast_lv (other : RetainPtr) (h : Heap) : RetainPtr × Heap :=
  retainCtor other.m_ptr h

/-- `reinterpret_pointer_cast` on an rvalue (memory.h lines 704-709). -/
def reinterpret_pointer_cast_rv (defaultAdopt : Bool) (other : RetainPtr) (h : Heap) :
    RetainPtr × RetainPtr × Heap :=
  let r := releaseOp other h
  let c := rawCtor defaultAdopt r.1 r.2.2
  (c.1, r.2.1, c.2)

/-- The language-level `dynamic_cast<T*>`: succeeds and preserves the
address when the dynamic type of the pointed-to object satisfies the
target check `matches`, yields `nullptr` otherwise or on `nullptr`. -/
def dynCast (tyMatches : Obj → Bool) (h : Heap) (p : Ptr) : Ptr :=
  match p with
  | some a => if tyMatches (h a) then some a else none
  | none => none

/-- `dynamic_pointer_cast` on an rvalue (memory.h lines 685-694):
`other.release()` runs first (argument evaluation), then the raw
`dynamic_cast`; on success the single-argument constructor adopts (or
retains, per `default_action`); on failure the released raw pointer is
discarded and an empty handle is returned.  Result components: the new
handle, the emptied source, the heap. -/
def dynamic_pointer_cast_rv (tyMatches : Obj → Bool) (defaultAdopt : Bool)
    (other : RetainPtr) (h : Heap) : RetainPtr × RetainPtr × Heap :=
  let r := releaseOp other h
  match dynCast tyMatches r.2.2 r.1 with
  | some a =>
    let c := rawCtor defaultAdopt (some a) r.2.2
    (c.1, r.2.1, c.2)
  | none => ((⟨none⟩ : RetainPtr), r.2.1, r.2.2)

/-! ### Converting operations across the class hierarchy

The converting constructors and assignment operators are templates over
a source handle `retain_ptr<U, UTraits>` with `U` derived from the
element type (a compile-time constraint, `DerivedFrom_v<U, T>`). Which
traits type performs each count manipulation is part of the claims, so
these models are parameterised by abstract traits values. -/

/-- An abstract traits type: its `increment` and `decrement` static
operations, as heap transformers. -/
structure TraitsM where
  increment : Heap → Nat → Heap
  decrement : Heap → Nat → Heap

/-- The default `retain_traits` over the plain counter mixin. -/
def defaultTraitsM : TraitsM :=
  ⟨increment, decrement⟩

/-- Converting copy constructor (memory.h lines 353-363):
`m_ptr(other.get())`, then `if (other) UTraits::increment(other.get())`
— the increment goes through the traits of the source. -/
def convertCopyCon (UTraits : TraitsM) (other : RetainPtr) (h : Heap) :
    RetainPtr × Heap :=
  ((⟨other.m_ptr⟩ : RetainPtr),
    match other.m_ptr with
    | some a => UTraits.increment h a
    | none => h)

/-- Converting copy assignment (memory.h lines 424-440): the body runs
`traits_type::increment(other.get())` (line 431) and
`traits_type::decrement(this->get())` (line 435) — both through the
traits of the destination `retain_ptr<T, Traits>`; the traits `UTraits`
of the source are not used. -/
def convertCopyAssign (Traits UTraits : TraitsM) (self other : RetainPtr)
    (h : Heap) : RetainPtr × Heap :=
  let h1 :=
    match other.m_ptr with
    | some a => Traits.increment h a
    | none => h
  let h2 :=
    match self.m_ptr with
    | some a => Traits.decrement h1 a
    | none => h1
  ((⟨other.m_ptr⟩ : RetainPtr), h2)

/-- Converting move constructor (memory.h lines 373-379):
`m_ptr(other.release())`, no count manipulation. -/
def convertMoveCon (other : RetainPtr) (h : Heap) :
    RetainPtr × RetainPtr × Heap :=
  ((⟨other.m_ptr⟩ : RetainPtr), (⟨none⟩ : RetainPtr), h)

/-- Converting move assignment (memory.h lines 464-475): decrement the
current target through the destination traits, then
`m_ptr = other.release()`. -/
def convertMoveAssign (Traits : TraitsM) (self other : RetainPtr) (h : Heap) :
    RetainPtr × RetainPtr × Heap :=
  let h1 :=
    match self.m_ptr with
    | some a => Traits.decrement h a
    | none => h
  ((⟨other.m_ptr⟩ : RetainPtr), (⟨none⟩ : RetainPtr), h1)

/-! ### The retaining constructor under a throwing increment

`retain_ptr(pointer p, retain_object_t)` (memory.h lines 300-307)
delegates to `retain_ptr(p, adopt_object)` and then runs
`traits_type::increment(this->get())` in its body.  By the C++ rules
for delegating constructors, once the target constructor has completed
the object counts as fully constructed, so if the body exits with an
exception the destructor `~retain_ptr` (memory.h lines 497-503) runs —
and, since the stored pointer is already `p`, it calls
`traits_type::decrement(p)` during unwinding. -/

/-- Traits whose `increment` may throw (`none` models a throw). -/
structure ThrowTraitsM where
  tryIncrement : Heap → Nat → Option Heap
  decrement : Heap → Nat → Heap

/-- Model of `retain_ptr(pointer p, retain_object_t)` with a possibly
throwing `increment`.  `Except.ok` carries the constructed handle and
heap; `Except.error` carries the heap after the exception has
propagated, including the decrement performed by the destructor of the
already-constructed `retain_ptr` during unwinding. -/
def retainCtorThrowing (tr : ThrowTraitsM) (p : Ptr) (h : Heap) :
    Except Heap (RetainPtr × Heap) :=
  match p with
  | none => .ok ((⟨none⟩ : RetainPtr), h)
  | some a =>
    match tr.tryIncrement h a with
    | some h1 => .ok ((⟨some a⟩ : RetainPtr), h1)
    | none => .error (tr.decrement h a)

/-! ### Traces of handle operations (for the counting invariant)

A world is the heap together with the currently-alive `retain_ptr`
values, under the default traits.  The steps are exactly the
operations the invariant claim ranges over: default construction, copy
construction from an existing handle, copy assignment between handles
(with the `&other != this` self-assignment guard), and destruction. -/

/-- The number of currently-alive handles whose stored pointer is the
address `a`. -/
def owners (ps : List RetainPtr) (a : Nat) : Nat :=
  ps.countP (fun p => decide (p.m_ptr = some a))

/-- The heap together with the currently-alive handles. -/
structure World where
  heap : Heap
  ptrs : List RetainPtr

/-- One handle operation.  The heap updates are the models of the
corresponding member functions above:
* `conEmpty` — default construction (memory.h line 282);
* `copyCon` — copy construction from an alive handle (lines 326-333);
* `copyAsgnSelf` — copy assignment of a handle to itself, skipped by
  the `&other != this` guard (lines 399-414);
* `copyAsgn` — copy assignment from a distinct alive handle `pj` into
  the handle `pi` (lines 399-414): increment the new target, then
  decrement the old one, then store;
* `destroy` — destruction of a handle (lines 497-503). -/
inductive Step : World → World → Prop
  | conEmpty (h : Heap) (ps : List RetainPtr) :
      Step ⟨h, ps⟩ ⟨h, ps ++ [(⟨none⟩ : RetainPtr)]⟩
  | copyCon (h : Heap) (ps : List RetainPtr) (p : RetainPtr) (hp : p ∈ ps) :
      Step ⟨h, ps⟩ ⟨incIfSome h p.m_ptr, ps ++ [(⟨p.m_ptr⟩ : RetainPtr)]⟩
  | copyAsgnSelf (w : World) : Step w w
  | copyAsgn (h : Heap) (l1 : List RetainPtr) (pi : RetainPtr)
      (l2 : List RetainPtr) (pj : RetainPtr) (hj : pj ∈ l1 ∨ pj ∈ l2) :
      Step ⟨h, l1 ++ pi :: l2⟩
        ⟨decIfSome (incIfSome h pj.m_ptr) pi.m_ptr,
          l1 ++ (⟨pj.m_ptr⟩ : RetainPtr) :: l2⟩
  | destroy (h : Heap) (l1 : List RetainPtr) (p : RetainPtr)
      (l2 : List RetainPtr) :
      Step ⟨h, l1 ++ p :: l2⟩ ⟨decIfSome h p.m_ptr, l1 ++ l2⟩

/-- Any finite sequence of handle operations. -/
def Steps : World → World → Prop :=
  Relation.ReflTransGen Step

/-- A cell as `new T` produces it: the mixin initialises the count to 1
(memory.h line 110, `m_count{ 1 }`), the object is alive and has never
been disposed. -/
def newObj (t : Nat) : Obj :=
  ⟨1, true, 0, t⟩

/-- A never-allocated cell. -/
def freshObj : Obj :=
  ⟨0, false, 0, 0⟩

/-- The world right after `make_retain<T>()` (memory.h lines 851-856):
one object at address 0, count 1, adopted by a single handle. -/
def initWorld : World :=
  ⟨fun x => if x = 0 then newObj 0 else freshObj, [(⟨some 0⟩ : RetainPtr)]⟩

/-- The per-address counting invariant: the stored count is the number
of owning handles, disposal happened at most once, and only after the
last owner is gone. -/
def objInv (o : Obj) (n : Nat) : Prop :=
  o.count = (n : Int) ∧ o.disposals ≤ 1 ∧ (o.disposals = 1 → n = 0)

/-- The full invariant: every address satisfies `objInv`, and the
object created at address 0 is either still owned or has been disposed
(so it is never silently leaked nor double-freed). -/
def Inv (w : World) : Prop :=
  (∀ a, objInv (w.heap a) (owners w.ptrs a)) ∧
    (0 < owners w.ptrs 0 ∨ (w.heap 0).disposals = 1)

/-! ### Concrete instances used in the theorems below -/

/-- Manual `delete p` performed by a caller on a raw pointer obtained
from `release()`. -/
def deleteRaw (h : Heap) (a : Nat) : Heap :=
  fun x => if x = a then dispose (h a) else h x

/-- A heap holding one freshly created object at address 0 (count 1,
alive, never disposed, dynamic type 0). -/
def leakHeap : Heap :=
  fun x => if x = 0 then ⟨1, true, 0, 0⟩ else ⟨0, false, 0, 0⟩

/-- A heap whose object at address 0 has two owners (count 2). -/
def aliasHeap : Heap :=
  fun x => if x = 0 then ⟨2, true, 0, 0⟩ else ⟨0, false, 0, 0⟩

/-- A heap with count 5 everywhere, to observe increments. -/
def heap5 : Heap :=
  fun _ => ⟨5, true, 0, 0⟩

/-- A custom traits value whose `increment` adds 2 — distinguishable
from the default traits, as a C++ user-supplied traits type may be. -/
def traitsPlusTwo : TraitsM :=
  ⟨fun h a => increment (increment h a) a, decrement⟩

/-- Traits whose `increment` always throws, with the default
`decrement`. -/
def throwingTraits : ThrowTraitsM :=
  ⟨fun _ _ => none, decrement⟩

/-- The dynamic type check of `dynamic_cast<T*>` for a target type
(type 1) that the object (type 0) does not match. -/
def notDerived : Obj → Bool :=
  fun o => decide (o.ty = 1)

/-- World after copy-constructing a second handle from the initial one:
count 2, two handles. -/
def witWorld1 : World :=
  ⟨incIfSome initWorld.heap (some 0),
    [(⟨some 0⟩ : RetainPtr), (⟨some 0⟩ : RetainPtr)]⟩

/-- World after additionally destroying one handle: count 1. -/
def witWorld2 : World :=
  ⟨decIfSome witWorld1.heap (some 0), [(⟨some 0⟩ : RetainPtr)]⟩

/-- World after destroying the last handle: no owners, disposed once. -/
def witWorld3 : World :=
  ⟨decIfSome witWorld2.heap (some 0), []⟩

/-! ### Heap and owner-count bookkeeping lemmas -/

theorem increment_apply_self (h : Heap) (a : Nat) :
    increment h a a = { h a with count := (h a).count + 1 } := by
  simp [increment]

theorem increment_apply_ne (h : Heap) (a x : Nat) (hx : x ≠ a) :
    increment h a x = h x := by
  simp [increment, hx]

theorem decrement_apply_self (h : Heap) (a : Nat) :
    decrement h a a
      = if (h a).count - 1 = 0 then dispose { h a with count := (h a).count - 1 }
        else { h a with count := (h a).count - 1 } := by
  simp [decrement]

theorem decrement_apply_ne (h : Heap) (a x : Nat) (hx : x ≠ a) :
    decrement h a x = h x := by
  simp [decrement, hx]

theorem owners_nil (a : Nat) : owners [] a = 0 :=
  rfl

theorem owners_cons (p : RetainPtr) (l : List RetainPtr) (a : Nat) :
    owners (p :: l) a = owners l a + (if p.m_ptr = some a then 1 else 0) := by
  by_cases hp : p.m_ptr = some a <;> simp [owners, List.countP_cons, hp]

theorem owners_append (l1 l2 : List RetainPtr) (a : Nat) :
    owners (l1 ++ l2) a = owners l1 a + owners l2 a := by
  simp [owners, List.countP_append]

theorem owners_append_single (ps : List RetainPtr) (x : RetainPtr) (a : Nat) :
    owners (ps ++ [x]) a = owners ps a + (if x.m_ptr = some a then 1 else 0) := by
  rw [owners_append, owners_cons, owners_nil, Nat.zero_add]

theorem owners_middle (l1 l2 : List RetainPtr) (x : RetainPtr) (a : Nat) :
    owners (l1 ++ x :: l2) a
      = (owners l1 a + owners l2 a) + (if x.m_ptr = some a then 1 else 0) := by
  rw [owners_append, owners_cons]
  omega

theorem ite_ptr_eq (b a : Nat) :
    (if (some b : Ptr) = some a then (1 : Nat) else 0)
      = (if b = a then (1 : Nat) else 0) := by
  by_cases h : b = a <;> simp [h]

theorem owners_pos (ps : List RetainPtr) (p : RetainPtr) (a : Nat)
    (hp : p ∈ ps) (hm : p.m_ptr = some a) : 1 ≤ owners ps a := by
  have : 0 < owners ps a := by
    refine List.countP_pos_iff.mpr ⟨p, hp, ?_⟩
    simp [hm]
  omega

/-! ### Invariant preservation for a single increment / decrement -/

theorem objInv_inc (h : Heap) (b : Nat) (n nn : Nat → Nat)
    (hn : ∀ a, nn a = n a + (if b = a then 1 else 0))
    (hb : 1 ≤ n b)
    (hi : ∀ a, objInv (h a) (n a)) :
    ∀ a, objInv (increment h b a) (nn a) := by
  intro a
  obtain ⟨hc, hd, hdz⟩ := hi a
  have hna := hn a
  by_cases hab : b = a
  · subst hab
    simp at hna
    rw [increment_apply_self]
    refine ⟨?_, hd, fun h1 => absurd (hdz h1) (by omega)⟩
    simp only [hc, hna]
    push_cast
    ring
  · rw [increment_apply_ne h b a (fun hh => hab hh.symm)]
    simp only [if_neg hab, Nat.add_zero] at hna
    rw [hna]
    exact ⟨hc, hd, hdz⟩

theorem objInv_dec (h : Heap) (b : Nat) (n nn : Nat → Nat)
    (hn : ∀ a, n a = nn a + (if b = a then 1 else 0))
    (hb : 1 ≤ n b)
    (hi : ∀ a, objInv (h a) (n a)) :
    ∀ a, objInv (decrement h b a) (nn a) := by
  intro a
  obtain ⟨hc, hd, hdz⟩ := hi a
  have hna := hn a
  by_cases hab : b = a
  · subst hab
    simp at hna
    have hd0 : (h b).disposals = 0 := by
      rcases Nat.eq_or_lt_of_le hd with h1 | h1
      · exact absurd (hdz h1) (by omega)
      · omega
    rw [decrement_apply_self]
    by_cases hz : (h b).count - 1 = 0
    · have hn1 : n b = 1 := by omega
      rw [if_pos hz]
      refine ⟨?_, ?_, fun _ => by omega⟩
      · simp only [dispose, hz]
        omega
      · simp only [dispose, hd0]
        omega
    · rw [if_neg hz]
      refine ⟨?_, hd, fun h1 => absurd (hdz h1) (by omega)⟩
      simp only [hc, hna]
      push_cast
      ring
  · rw [decrement_apply_ne h b a (fun hh => hab hh.symm)]
    simp only [if_neg hab, Nat.add_zero] at hna
    rw [← hna]
    exact ⟨hc, hd, hdz⟩

theorem created_inc (h : Heap) (b : Nat) (n nn : Nat → Nat)
    (hn : ∀ a, nn a = n a + (if b = a then 1 else 0))
    (hc : 0 < n 0 ∨ (h 0).disposals = 1) :
    0 < nn 0 ∨ (increment h b 0).disposals = 1 := by
  have hn0 := hn 0
  rcases hc with h0 | h0
  · left
    by_cases hb0 : b = 0 <;> simp [hb0] at hn0 <;> omega
  · right
    by_cases hb0 : b = 0
    · subst hb0
      rw [increment_apply_self]
      exact h0
    · rw [increment_apply_ne h b 0 (fun hh => hb0 hh.symm)]
      exact h0

theorem created_dec (h : Heap) (b : Nat) (n nn : Nat → Nat)
    (hn : ∀ a, n a = nn a + (if b = a then 1 else 0))
    (hb : 1 ≤ n b)
    (hi : ∀ a, objInv (h a) (n a))
    (hc : 0 < n 0 ∨ (h 0).disposals = 1) :
    0 < nn 0 ∨ (decrement h b 0).disposals = 1 := by
  have hn0 := hn 0
  by_cases hb0 : b = 0
  · subst hb0
    simp at hn0
    rcases Nat.eq_zero_or_pos (nn 0) with hz | hp
    · right
      obtain ⟨hcnt, hd, hdz⟩ := hi 0
      have hn1 : n 0 = 1 := by omega
      have hd0 : (h 0).disposals = 0 := by
        rcases Nat.eq_or_lt_of_le hd with h1 | h1
        · exact absurd (hdz h1) (by omega)
        · omega
      have hcz : (h 0).count - 1 = 0 := by
        rw [hcnt]
        omega
      rw [decrement_apply_self, if_pos hcz]
      simp only [dispose, hd0]
    · left
      exact hp
  · simp only [if_neg hb0, Nat.add_zero] at hn0
    rw [decrement_apply_ne h b 0 (fun hh => hb0 hh.symm)]
    rcases hc with h0 | h0
    · left
      omega
    · right
      exact h0

/-! ### The invariant is preserved by every handle operation -/

theorem inv_step (w w' : World) (hs : Step w w') (hi : Inv w) : Inv w' := by
  obtain ⟨hinv, hcr⟩ := hi
  cases hs with
  | conEmpty h ps =>
    have hown : ∀ a, owners (ps ++ [(⟨none⟩ : RetainPtr)]) a = owners ps a := by
      intro a
      rw [owners_append_single]
      simp
    refine ⟨fun a => ?_, ?_⟩
    · show objInv (h a) (owners (ps ++ [(⟨none⟩ : RetainPtr)]) a)
      rw [hown a]
      exact hinv a
    · show 0 < owners (ps ++ [(⟨none⟩ : RetainPtr)]) 0 ∨ (h 0).disposals = 1
      rw [hown 0]
      exact hcr
  | copyCon h ps p hp =>
    cases hmp : p.m_ptr with
    | none =>
      have hown : ∀ a, owners (ps ++ [(⟨none⟩ : RetainPtr)]) a = owners ps a := by
        intro a
        rw [owners_append_single]
        simp
      refine ⟨fun a => ?_, ?_⟩
      · show objInv (h a) (owners (ps ++ [(⟨none⟩ : RetainPtr)]) a)
        rw [hown a]
        exact hinv a
      · show 0 < owners (ps ++ [(⟨none⟩ : RetainPtr)]) 0 ∨ (h 0).disposals = 1
        rw [hown 0]
        exact hcr
    | some b =>
      have hown : ∀ a, owners (ps ++ [(⟨some b⟩ : RetainPtr)]) a
          = owners ps a + (if b = a then 1 else 0) := by
        intro a
        rw [owners_append_single]
        show owners ps a + (if (some b : Ptr) = some a then 1 else 0) = _
        rw [ite_ptr_eq]
      have hb : 1 ≤ owners ps b := owners_pos ps p b hp hmp
      exact ⟨objInv_inc h b (owners ps) _ hown hb hinv,
        created_inc h b (owners ps) _ hown hcr⟩
  | copyAsgnSelf w =>
    exact ⟨hinv, hcr⟩
  | copyAsgn h l1 pi l2 pj hj =>
    have hpimem : pi ∈ l1 ++ pi :: l2 := by simp
    have hpjmem : pj ∈ l1 ++ pi :: l2 := by
      rcases hj with hj | hj <;> simp [hj]
    cases hmj : pj.m_ptr with
    | none =>
      cases hmi : pi.m_ptr with
      | none =>
        have hown : ∀ a, owners (l1 ++ (⟨none⟩ : RetainPtr) :: l2) a
            = owners (l1 ++ pi :: l2) a := by
          intro a
          rw [owners_middle, owners_middle, hmi]
        refine ⟨fun a => ?_, ?_⟩
        · show objInv (h a) (owners (l1 ++ (⟨none⟩ : RetainPtr) :: l2) a)
          rw [hown a]
          exact hinv a
        · show 0 < owners (l1 ++ (⟨none⟩ : RetainPtr) :: l2) 0 ∨ (h 0).disposals = 1
          rw [hown 0]
          exact hcr
      | some bi =>
        have hown : ∀ a, owners (l1 ++ pi :: l2) a
            = owners (l1 ++ (⟨none⟩ : RetainPtr) :: l2) a
              + (if bi = a then 1 else 0) := by
          intro a
          rw [owners_middle, owners_middle, hmi]
          show _ + (if (some bi : Ptr) = some a then 1 else 0) = _
          rw [ite_ptr_eq]
          simp
        have hb : 1 ≤ owners (l1 ++ pi :: l2) bi :=
          owners_pos _ pi bi hpimem hmi
        exact ⟨objInv_dec h bi _ _ hown hb hinv,
          created_dec h bi _ _ hown hb hinv hcr⟩
    | some bj =>
      cases hmi : pi.m_ptr with
      | none =>
        have hown : ∀ a, owners (l1 ++ (⟨some bj⟩ : RetainPtr) :: l2) a
            = owners (l1 ++ pi :: l2) a + (if bj = a then 1 else 0) := by
          intro a
          rw [owners_middle, owners_middle, hmi]
          show _ + (if (some bj : Ptr) = some a then 1 else 0) = _
          rw [ite_ptr_eq]
          simp
        have hb : 1 ≤ owners (l1 ++ pi :: l2) bj :=
          owners_pos _ pj bj hpjmem hmj
        exact ⟨objInv_inc h bj _ _ hown hb hinv,
          created_inc h bj _ _ hown hcr⟩
      | some bi =>
        have hbi : 1 ≤ owners (l1 ++ pi :: l2) bi :=
          owners_pos _ pi bi hpimem hmi
        have hbj : 1 ≤ owners (l1 ++ pi :: l2) bj :=
          owners_pos _ pj bj hpjmem hmj
        have hinc := objInv_inc h bj (owners (l1 ++ pi :: l2))
          (fun a => owners (l1 ++ pi :: l2) a + (if bj = a then 1 else 0))
          (fun a => rfl) hbj hinv
        have hcr1 := created_inc h bj (owners (l1 ++ pi :: l2))
          (fun a => owners (l1 ++ pi :: l2) a + (if bj = a then 1 else 0))
          (fun a => rfl) hcr
        have hown : ∀ a, owners (l1 ++ pi :: l2) a + (if bj = a then 1 else 0)
            = owners (l1 ++ (⟨some bj⟩ : RetainPtr) :: l2) a
              + (if bi = a then 1 else 0) := by
          intro a
          rw [owners_middle, owners_middle, hmi]
          show (_ + (if (some bi : Ptr) = some a then 1 else 0)) + _
              = (_ + (if (some bj : Ptr) = some a then 1 else 0)) + _
          rw [ite_ptr_eq, ite_ptr_eq]
          omega
        have hbmid : 1 ≤ owners (l1 ++ pi :: l2) bi
            + (if bj = bi then 1 else 0) := by
          omega
        have hdec := objInv_dec (increment h bj) bi
          (fun a => owners (l1 ++ pi :: l2) a + (if bj = a then 1 else 0))
          (owners (l1 ++ (⟨some bj⟩ : RetainPtr) :: l2)) hown hbmid hinc
        have hcr2 := created_dec (increment h bj) bi
          (fun a => owners (l1 ++ pi :: l2) a + (if bj = a then 1 else 0))
          (owners (l1 ++ (⟨some bj⟩ : RetainPtr) :: l2)) hown hbmid hinc hcr1
        exact ⟨hdec, hcr2⟩
  | destroy h l1 p l2 =>
    have hpmem : p ∈ l1 ++ p :: l2 := by simp
    cases hmp : p.m_ptr with
    | none =>
      have hown : ∀ a, owners (l1 ++ l2) a = owners (l1 ++ p :: l2) a := by
        intro a
        rw [owners_middle, owners_append, hmp]
        simp
      refine ⟨fun a => ?_, ?_⟩
      · show objInv (h a) (owners (l1 ++ l2) a)
        rw [hown a]
        exact hinv a
      · show 0 < owners (l1 ++ l2) 0 ∨ (h 0).disposals = 1
        rw [hown 0]
        exact hcr
    | some b =>
      have hown : ∀ a, owners (l1 ++ p :: l2) a
          = owners (l1 ++ l2) a + (if b = a then 1 else 0) := by
        intro a
        rw [owners_middle, owners_append, hmp]
        show _ + (if (some b : Ptr) = some a then 1 else 0) = _
        rw [ite_ptr_eq]
      have hb : 1 ≤ owners (l1 ++ p :: l2) b :=
        owners_pos _ p b hpmem hmp
      exact ⟨objInv_dec h b _ _ hown hb hinv,
        created_dec h b _ _ hown hb hinv hcr⟩

/-- The initial world satisfies the invariant. -/
theorem inv_init : Inv initWorld := by
  constructor
  · intro a
    by_cases h0 : a = 0
    · subst h0
      have h1 : owners initWorld.ptrs 0 = 1 := by
        simp [initWorld, owners]
      have h2 : initWorld.heap 0 = newObj 0 := by
        simp [initWorld]
      rw [h1, h2]
      exact ⟨by decide, by decide, by decide⟩
    · have h1 : owners initWorld.ptrs a = 0 := by
        simp [initWorld, owners, Ne.symm h0]
      have h2 : initWorld.heap a = freshObj := by
        simp [initWorld, h0]
      rw [h1, h2]
      exact ⟨by decide, by decide, by decide⟩
  · left
    have h1 : owners initWorld.ptrs 0 = 1 := by
      simp [initWorld, owners]
    omega

/-- The invariant holds in every world reachable from the initial one. -/
theorem inv_steps (w : World) (hs : Steps initWorld w) : Inv w := by
  induction hs with
  | refl => exact inv_init
  | tail _ hbc ih => exact inv_step _ _ hbc ih

/-- Incrementing and then decrementing the same cell restores the heap,
provided the cell was referenced (count at least 1), and in particular
no disposal fires. -/
theorem inc_dec_cancel (h : Heap) (a : Nat) (hc : 1 ≤ (h a).count) :
    decrement (increment h a) a = h := by
  funext z
  by_cases hz : z = a
  · subst hz
    rw [decrement_apply_self, increment_apply_self]
    have hne : ¬((({ h z with count := (h z).count + 1 } : Obj)).count - 1 = 0) := by
      show ¬((h z).count + 1 - 1 = 0)
      omega
    rw [if_neg hne]
    show Obj.mk ((h z).count + 1 - 1) (h z).alive (h z).disposals (h z).ty = h z
    have hcc : (h z).count + 1 - 1 = (h z).count := by omega
    rw [hcc]
  · rw [decrement_apply_ne _ _ _ hz, increment_apply_ne _ _ _ hz]

/-! ### The claims -/

/-- C6: `use_count()` returns -1 when the traits type for the pointer
type has no `use_count` operation at all, 0 when the stored pointer is
null, and otherwise the true count reported by the traits, converted to
`std::ptrdiff_t` by the saturating cast; the saturating cast passes
values inside the target range through unchanged and saturates at the
target bounds when a wider source value overflows them. -/
theorem use_count_spec :
    (∀ (szTy : SignedIntType) (x : RetainPtr) (h : Heap),
      use_count false szTy x h = -1) ∧
    (∀ (szTy : SignedIntType) (h : Heap),
      use_count true szTy (⟨none⟩ : RetainPtr) h = 0) ∧
    (∀ (szTy : SignedIntType) (x : RetainPtr) (h : Heap) (a : Nat),
      x.m_ptr = some a →
      use_count true szTy x h = clamp_cast ptrdiffT szTy ((h a).count)) ∧
    (∀ (target source : SignedIntType) (v : Int),
      target.lo ≤ v → v ≤ target.hi →
      clamp_cast target source v = v) ∧
    (∀ (target source : SignedIntType) (v : Int),
      source ≠ target → source.hi > target.hi → v > target.hi →
      clamp_cast target source v = target.hi) ∧
    (∀ (target source : SignedIntType) (v : Int),
      target.lo ≤ target.hi →
      source ≠ target → source.hi > target.hi → v < target.lo →
      clamp_cast target source v = target.lo) := by
  refine ⟨fun szTy x h => rfl, fun szTy h => rfl, ?_, ?_, ?_, ?_⟩
  · intro szTy x h a hm
    simp [use_count, hm]
  · intro t s v h1 h2
    unfold clamp_cast clamp_cast_impl
    split_ifs <;> omega
  · intro t s v hst hsh hv
    unfold clamp_cast
    rw [if_neg hst, if_pos hsh]
    unfold clamp_cast_impl
    rw [if_pos hv]
  · intro t s v hlohi hst hsh hv
    unfold clamp_cast
    rw [if_neg hst, if_pos hsh]
    unfold clamp_cast_impl
    have hngt : ¬(v > t.hi) := by omega
    rw [if_neg hngt, if_pos hv]

theorem use_count_spec_witness :
    use_count true ptrdiffT (⟨some 0⟩ : RetainPtr) leakHeap
      = clamp_cast ptrdiffT ptrdiffT ((leakHeap 0).count) :=
  use_count_spec.2.2.1 ptrdiffT (⟨some 0⟩ : RetainPtr) leakHeap 0 rfl

/-- C8: for an Owning handle, `release()` returns the stored pointer
without any decrement (the heap is untouched), leaves the handle Empty,
the destruction of the emptied handle performs no decrement and no
disposal, and after the caller manually deletes the returned pointer
the handle destruction still changes nothing, so the total number of
disposals stays exactly one. -/
theorem release_no_decrement :
    (∀ (x : RetainPtr) (h : Heap), x.m_ptr ≠ none →
      releaseOp x h = (x.m_ptr, (⟨none⟩ : RetainPtr), h)) ∧
    (∀ h : Heap, destructOp (⟨none⟩ : RetainPtr) h = h) ∧
    (∀ (h : Heap) (a : Nat),
      ((deleteRaw h a) a).disposals = (h a).disposals + 1 ∧
      destructOp (⟨none⟩ : RetainPtr) (deleteRaw h a) = deleteRaw h a) := by
  refine ⟨fun x h _ => rfl, fun h => rfl, fun h a => ⟨?_, rfl⟩⟩
  simp [deleteRaw, dispose]

theorem release_no_decrement_witness :
    releaseOp (⟨some 0⟩ : RetainPtr) leakHeap
      = (some 0, (⟨none⟩ : RetainPtr), leakHeap) :=
  release_no_decrement.1 (⟨some 0⟩ : RetainPtr) leakHeap (by decide)

/-- C9: with the default traits (whose `default_action` is adopt), the
static, const and reinterpret pointer casts of a non-empty source: from
an lvalue they produce the cast pointer and increment the count of the
shared object by exactly 1, touching no other cell and leaving the
source value unchanged; from an rvalue they produce the cast pointer,
empty the source, and change no count at all. -/
theorem pointer_casts_retain_adopt :
    (∀ (other : RetainPtr) (h : Heap) (a : Nat), other.m_ptr = some a →
      static_pointer_cast_lv other h = ((⟨some a⟩ : RetainPtr), increment h a) ∧
      const_pointer_cast_lv other h = ((⟨some a⟩ : RetainPtr), increment h a) ∧
      reinterpret_pointer_cast_lv other h = ((⟨some a⟩ : RetainPtr), increment h a) ∧
      ((increment h a) a).count = (h a).count + 1 ∧
      (∀ x, x ≠ a → (increment h a) x = h x)) ∧
    (∀ (other : RetainPtr) (h : Heap),
      static_pointer_cast_rv true other h
        = ((⟨other.m_ptr⟩ : RetainPtr), (⟨none⟩ : RetainPtr), h) ∧
      const_pointer_cast_rv true other h
        = ((⟨other.m_ptr⟩ : RetainPtr), (⟨none⟩ : RetainPtr), h) ∧
      reinterpret_pointer_cast_rv true other h
        = ((⟨other.m_ptr⟩ : RetainPtr), (⟨none⟩ : RetainPtr), h)) := by
  constructor
  · intro other h a hm
    refine ⟨?_, ?_, ?_, ?_, fun x hx => increment_apply_ne h a x hx⟩
    · simp [static_pointer_cast_lv, retainCtor, incIfSome, hm]
    · simp [const_pointer_cast_lv, retainCtor, incIfSome, hm]
    · simp [reinterpret_pointer_cast_lv, retainCtor, incIfSome, hm]
    · rw [increment_apply_self]
  · intro other h
    exact ⟨rfl, rfl, rfl⟩

theorem pointer_casts_retain_adopt_witness :
    static_pointer_cast_lv (⟨some 0⟩ : RetainPtr) leakHeap
      = ((⟨some 0⟩ : RetainPtr), increment leakHeap 0) :=
  (pointer_casts_retain_adopt.1 (⟨some 0⟩ : RetainPtr) leakHeap 0 rfl).1

/-- C10: the equality and relational operators depend only on the
stored raw pointers (`x == y` iff `x.get() == y.get()`, and the null
overloads test emptiness), and the hash of a handle is the hash of its
stored raw pointer, so a null handle hashes like a null raw pointer and
two handles to the same object hash equal. -/
theorem comparison_hash_raw_pointer_only :
    (∀ x y : RetainPtr, eqOp x y = true ↔ x.m_ptr = y.m_ptr) ∧
    (∀ x y : RetainPtr, neOp x y = true ↔ x.m_ptr ≠ y.m_ptr) ∧
    (∀ (less : Ptr → Ptr → Bool) (x y x2 y2 : RetainPtr),
      x.m_ptr = x2.m_ptr → y.m_ptr = y2.m_ptr →
      ltOp less x y = ltOp less x2 y2 ∧ leOp less x y = leOp less x2 y2 ∧
      gtOp less x y = gtOp less x2 y2 ∧ geOp less x y = geOp less x2 y2) ∧
    (∀ x : RetainPtr, eqNullOp x = true ↔ x.m_ptr = none) ∧
    (∀ y : RetainPtr, nullEqOp y = true ↔ y.m_ptr = none) ∧
    (∀ x : RetainPtr, neNullOp x = true ↔ x.m_ptr ≠ none) ∧
    (∀ y : RetainPtr, nullNeOp y = true ↔ y.m_ptr ≠ none) ∧
    (∀ (hf : Ptr → Nat) (x : RetainPtr), hashOp hf x = hf x.m_ptr) ∧
    (∀ hf : Ptr → Nat, hashOp hf (⟨none⟩ : RetainPtr) = hf none) ∧
    (∀ (hf : Ptr → Nat) (x y : RetainPtr), x.m_ptr = y.m_ptr →
      hashOp hf x = hashOp hf y) := by
  refine ⟨?_, ?_, ?_, ?_, ?_, ?_, ?_, fun hf x => rfl, fun hf => rfl, ?_⟩
  · intro x y
    simp [eqOp]
  · intro x y
    simp [neOp]
  · intro less x y x2 y2 hx hy
    refine ⟨?_, ?_, ?_, ?_⟩ <;> simp [ltOp, leOp, gtOp, geOp, hx, hy]
  · intro x
    simp [eqNullOp, boolOp]
  · intro y
    simp [nullEqOp, boolOp]
  · intro x
    simp [neNullOp, boolOp]
  · intro y
    simp [nullNeOp, boolOp]
  · intro hf x y hxy
    simp [hashOp, hxy]

theorem comparison_hash_raw_pointer_only_witness :
    eqOp (⟨some 0⟩ : RetainPtr) (⟨some 0⟩ : RetainPtr) = true ∧
    hashOp (fun p => if p = none then 3 else 42) (⟨some 0⟩ : RetainPtr)
      = hashOp (fun p => if p = none then 3 else 42) (⟨some 0⟩ : RetainPtr) :=
  ⟨(comparison_hash_raw_pointer_only.1 (⟨some 0⟩ : RetainPtr)
      (⟨some 0⟩ : RetainPtr)).mpr rfl,
    comparison_hash_raw_pointer_only.2.2.2.2.2.2.2.2.2
      (fun p => if p = none then 3 else 42)
      (⟨some 0⟩ : RetainPtr) (⟨some 0⟩ : RetainPtr) rfl⟩

/-- C2: copy-assignment increments the new target before decrementing
the old one, so whenever the two handles store the same raw pointer
(and, if non-null, the object is still referenced, count at least 1)
the assignment leaves both the heap and the stored pointer unchanged
and no disposal can fire (the count stays positive at the intermediate
point); literal self-assignment and self move-assignment are no-ops by
the address guard. -/
theorem copy_assign_aliasing_safe :
    (∀ (x : RetainPtr) (h : Heap), copyAssign x x true h = (x, h)) ∧
    (∀ (x : RetainPtr) (h : Heap), moveAssign x x true h = (x, x, h)) ∧
    (∀ (x y : RetainPtr) (h : Heap) (a : Nat),
      x.m_ptr = y.m_ptr → y.m_ptr = some a → 1 ≤ (h a).count →
      copyAssign x y false h = (x, h) ∧ 0 < ((increment h a) a).count) ∧
    (∀ (x y : RetainPtr) (h : Heap),
      x.m_ptr = y.m_ptr → y.m_ptr = none →
      copyAssign x y false h = (x, h)) := by
  refine ⟨fun x h => rfl, fun x h => rfl, ?_, ?_⟩
  · intro x y h a hxy hya hc
    obtain ⟨xm⟩ := x
    obtain ⟨ym⟩ := y
    dsimp only at hxy hya
    subst hxy
    subst hya
    constructor
    · show copyAssign (⟨some a⟩ : RetainPtr) (⟨some a⟩ : RetainPtr) false h
        = ((⟨some a⟩ : RetainPtr), h)
      simp only [copyAssign, Bool.false_eq_true, if_false]
      dsimp only [incIfSome, decIfSome]
      rw [inc_dec_cancel h a hc]
    · rw [increment_apply_self]
      show 0 < (h a).count + 1
      omega
  · intro x y h hxy hyn
    obtain ⟨xm⟩ := x
    obtain ⟨ym⟩ := y
    dsimp only at hxy hyn
    subst hxy
    subst hyn
    rfl

theorem copy_assign_aliasing_safe_witness :
    copyAssign (⟨some 0⟩ : RetainPtr) (⟨some 0⟩ : RetainPtr) false leakHeap
      = ((⟨some 0⟩ : RetainPtr), leakHeap) :=
  (copy_assign_aliasing_safe.2.2.1 (⟨some 0⟩ : RetainPtr)
    (⟨some 0⟩ : RetainPtr) leakHeap 0 rfl rfl (by decide)).1

/-- C7 counterexample: the claim says move assignment never changes the
count of the managed object, but when the destination already stores
the same raw pointer as the moved-from handle (two distinct handles,
object count 2), the swap-based move assignment destroys the temporary
holding the old target of the destination and the count of that very
object drops from 2 to 1. -/
theorem move_assign_alias_count_changes_cex :
    ((moveAssign (⟨some 0⟩ : RetainPtr) (⟨some 0⟩ : RetainPtr)
      false aliasHeap).2.2 0).count ≠ (aliasHeap 0).count := by
  decide

/-- C7 (amended): move construction never touches any count and
empties the source; self move-assignment is a no-op; move assignment
stores the pointer of the moved-from handle, empties it, and only
decrements the previous target of the destination — so the count of
the moved object is unchanged whenever the destination did not already
store that same pointer; destroying a moved-from (Empty) handle
performs no decrement. -/
theorem move_semantics :
    (∀ (other : RetainPtr) (h : Heap),
      moveCon other h
        = ((⟨other.m_ptr⟩ : RetainPtr), (⟨none⟩ : RetainPtr), h)) ∧
    (∀ (x : RetainPtr) (h : Heap), moveAssign x x true h = (x, x, h)) ∧
    (∀ (x y : RetainPtr) (h : Heap),
      moveAssign x y false h
        = ((⟨y.m_ptr⟩ : RetainPtr), (⟨none⟩ : RetainPtr), destructOp x h)) ∧
    (∀ (x y : RetainPtr) (h : Heap) (a : Nat),
      y.m_ptr = some a → x.m_ptr ≠ y.m_ptr →
      ((moveAssign x y false h).2.2 a).count = (h a).count) ∧
    (∀ h : Heap, destructOp (⟨none⟩ : RetainPtr) h = h) := by
  refine ⟨fun other h => rfl, fun x h => rfl, fun x y h => rfl, ?_, fun h => rfl⟩
  intro x y h a hya hne
  show (decIfSome h x.m_ptr a).count = (h a).count
  cases hmx : x.m_ptr with
  | none => rfl
  | some b =>
    have hba : b ≠ a := by
      intro hb
      exact hne (by rw [hmx, hya, hb])
    show (decrement h b a).count = (h a).count
    rw [decrement_apply_ne h b a (fun hh => hba hh.symm)]

theorem move_semantics_witness :
    ((moveAssign (⟨some 1⟩ : RetainPtr) (⟨some 0⟩ : RetainPtr)
      false leakHeap).2.2 0).count = (leakHeap 0).count :=
  move_semantics.2.2.2.1 (⟨some 1⟩ : RetainPtr) (⟨some 0⟩ : RetainPtr)
    leakHeap 0 rfl (by decide)

/-- C3 counterexample: the claim fails on the code in three ways, each
at a concrete input.  First, the converting copy assignment (memory.h
line 431) performs its increment through `traits_type`, the traits of
the destination, not through the traits `UTraits` of the source as
claimed: with a destination traits whose increment adds 2 and the
default source traits, assigning a source storing address 0 over an
empty destination on a count-5 heap yields count 7, whereas an
increment through the source traits yields 6.  Second, the count does
not always increase by exactly 1: when the destination already
references the same object (count 2), the increment-then-decrement of
the converting copy assignment leaves the count at 2, not 3.  Third, a
converting move assignment onto a destination referencing the moved
object does change that object count: the decrement of the previous
target of the destination (memory.h line 471) drops it from 2 to 1. -/
theorem convert_copy_assign_dest_traits_cex :
    (((convertCopyAssign traitsPlusTwo defaultTraitsM (⟨none⟩ : RetainPtr)
        (⟨some 0⟩ : RetainPtr) heap5).2 0).count
      ≠ ((defaultTraitsM.increment heap5 0) 0).count) ∧
    (((convertCopyAssign defaultTraitsM defaultTraitsM
        (⟨some 0⟩ : RetainPtr) (⟨some 0⟩ : RetainPtr) aliasHeap).2 0).count
      ≠ (aliasHeap 0).count + 1) ∧
    (((convertMoveAssign defaultTraitsM (⟨some 0⟩ : RetainPtr)
        (⟨some 0⟩ : RetainPtr) aliasHeap).2.2 0).count
      ≠ (aliasHeap 0).count) := by
  refine ⟨by decide, by decide, by decide⟩

/-- C3 (amended): the converting copy constructor performs its
increment through the traits of the source (`UTraits`); the converting
copy assignment performs both its increment (memory.h line 431) and
its decrement (line 435) through the traits of the destination
(`traits_type`), whatever the previous target of the destination was.
Under the default traits, the converting copy construction increases
the count of the shared object by exactly 1, and so does the
converting copy assignment whenever the destination did not already
reference that object — when it did, the increment-then-decrement
leaves the count unchanged (and the heap untouched).  The converting
moves store the pointer and empty the source with no increment: the
converting move constructor changes no count at all, and the
converting move assignment decrements only the previous target of the
destination, through the destination traits, so the moved object count
is unchanged whenever the destination did not already store the same
pointer. -/
theorem converting_copy_dispatch :
    (∀ (UTraits : TraitsM) (other : RetainPtr) (h : Heap) (a : Nat),
      other.m_ptr = some a →
      convertCopyCon UTraits other h
        = ((⟨some a⟩ : RetainPtr), UTraits.increment h a)) ∧
    (∀ (Traits UTraits : TraitsM) (other : RetainPtr) (h : Heap) (a : Nat),
      other.m_ptr = some a →
      convertCopyAssign Traits UTraits (⟨none⟩ : RetainPtr) other h
        = ((⟨some a⟩ : RetainPtr), Traits.increment h a)) ∧
    (∀ (Traits UTraits : TraitsM) (self other : RetainPtr) (h : Heap)
        (a b : Nat), other.m_ptr = some a → self.m_ptr = some b →
      convertCopyAssign Traits UTraits self other h
        = ((⟨some a⟩ : RetainPtr), Traits.decrement (Traits.increment h a) b)) ∧
    (∀ (other : RetainPtr) (h : Heap) (a : Nat),
      other.m_ptr = some a →
      ((convertCopyCon defaultTraitsM other h).2 a).count = (h a).count + 1) ∧
    (∀ (self other : RetainPtr) (h : Heap) (a : Nat),
      other.m_ptr = some a → (∀ b, self.m_ptr = some b → b ≠ a) →
      ((convertCopyAssign defaultTraitsM defaultTraitsM self other h).2 a).count
        = (h a).count + 1) ∧
    (∀ (self other : RetainPtr) (h : Heap) (a : Nat),
      self.m_ptr = some a → other.m_ptr = some a → 1 ≤ (h a).count →
      convertCopyAssign defaultTraitsM defaultTraitsM self other h
        = ((⟨some a⟩ : RetainPtr), h)) ∧
    (∀ (other : RetainPtr) (h : Heap),
      convertMoveCon other h
        = ((⟨other.m_ptr⟩ : RetainPtr), (⟨none⟩ : RetainPtr), h)) ∧
    (∀ (Traits : TraitsM) (other : RetainPtr) (h : Heap),
      convertMoveAssign Traits (⟨none⟩ : RetainPtr) other h
        = ((⟨other.m_ptr⟩ : RetainPtr), (⟨none⟩ : RetainPtr), h)) ∧
    (∀ (Traits : TraitsM) (self other : RetainPtr) (h : Heap) (b : Nat),
      self.m_ptr = some b →
      convertMoveAssign Traits self other h
        = ((⟨other.m_ptr⟩ : RetainPtr), (⟨none⟩ : RetainPtr),
            Traits.decrement h b)) ∧
    (∀ (x y : RetainPtr) (h : Heap) (a : Nat),
      y.m_ptr = some a → x.m_ptr ≠ y.m_ptr →
      ((convertMoveAssign defaultTraitsM x y h).2.2 a).count
        = (h a).count) := by
  refine ⟨?_, ?_, ?_, ?_, ?_, ?_, fun other h => rfl,
    fun Traits other h => rfl, ?_, ?_⟩
  · intro UTraits other h a hm
    simp [convertCopyCon, hm]
  · intro Traits UTraits other h a hm
    simp [convertCopyAssign, hm]
  · intro Traits UTraits self other h a b hm hs
    simp [convertCopyAssign, hm, hs]
  · intro other h a hm
    simp only [convertCopyCon, hm]
    show ((increment h a) a).count = (h a).count + 1
    rw [increment_apply_self]
  · intro self other h a hm hnb
    cases hs : self.m_ptr with
    | none =>
      simp only [convertCopyAssign, hm, hs]
      show ((increment h a) a).count = (h a).count + 1
      rw [increment_apply_self]
    | some b =>
      have hba : b ≠ a := hnb b hs
      simp only [convertCopyAssign, hm, hs]
      show ((decrement (increment h a) b) a).count = (h a).count + 1
      rw [decrement_apply_ne _ _ _ (fun hh => hba hh.symm)]
      show ((increment h a) a).count = (h a).count + 1
      rw [increment_apply_self]
  · intro self other h a hs hm hc
    simp only [convertCopyAssign, hm, hs]
    show ((⟨some a⟩ : RetainPtr), decrement (increment h a) a)
        = ((⟨some a⟩ : RetainPtr), h)
    rw [inc_dec_cancel h a hc]
  · intro Traits self other h b hs
    simp [convertMoveAssign, hs]
  · intro x y h a hya hne
    cases hmx : x.m_ptr with
    | none =>
      simp only [convertMoveAssign, hmx]
    | some b =>
      have hba : b ≠ a := by
        intro hb
        exact hne (by rw [hmx, hya, hb])
      simp only [convertMoveAssign, hmx]
      show ((decrement h b) a).count = (h a).count
      rw [decrement_apply_ne h b a (fun hh => hba hh.symm)]

theorem converting_copy_dispatch_witness :
    convertCopyCon defaultTraitsM (⟨some 0⟩ : RetainPtr) leakHeap
      = ((⟨some 0⟩ : RetainPtr), defaultTraitsM.increment leakHeap 0) ∧
    convertCopyAssign defaultTraitsM defaultTraitsM
        (⟨some 1⟩ : RetainPtr) (⟨some 0⟩ : RetainPtr) aliasHeap
      = ((⟨some 0⟩ : RetainPtr),
          defaultTraitsM.decrement
            (defaultTraitsM.increment aliasHeap 0) 1) :=
  ⟨converting_copy_dispatch.1 defaultTraitsM (⟨some 0⟩ : RetainPtr)
      leakHeap 0 rfl,
    converting_copy_dispatch.2.2.1 defaultTraitsM defaultTraitsM
      (⟨some 1⟩ : RetainPtr) (⟨some 0⟩ : RetainPtr) aliasHeap 0 1 rfl rfl⟩

/-- C1: behaviour of the rvalue `dynamic_pointer_cast` at a concrete
failing input.  The source owns the only reference to the object at
address 0 (count 1); the dynamic type does not match the target, so the
cast fails.  The code returns an Empty handle and empties the source,
but the heap is completely untouched: the released pointer is dropped
without any decrement, so the count stays 1 with zero owners and the
object is never disposed — it is leaked.  The last two conjuncts show
what the decrement required by the claim would have produced instead:
count 0 and exactly one disposal. -/
theorem dynamic_cast_rvalue_failure_leaks :
    dynamic_pointer_cast_rv notDerived true (⟨some 0⟩ : RetainPtr) leakHeap
      = ((⟨none⟩ : RetainPtr), (⟨none⟩ : RetainPtr), leakHeap) ∧
    (leakHeap 0).count = 1 ∧ (leakHeap 0).disposals = 0 ∧
    ((decrement leakHeap 0) 0).count = 0 ∧
    ((decrement leakHeap 0) 0).disposals = 1 := by
  refine ⟨rfl, by decide, by decide, by decide, by decide⟩

/-- C4: behaviour of the retaining constructor
`retain_ptr(p, retain_object_t)` when the traits increment throws, at a
concrete input: one object at address 0 with count 1.  The delegating
target constructor has already stored `p`, so the exception triggers
the destructor, which decrements: the resulting heap has count 0 and
the object has been disposed — the constructor is not effect-free as
its own documentation (memory.h line 298) and the claim require. -/
theorem retain_ctor_throwing_decrements :
    retainCtorThrowing throwingTraits (some 0) leakHeap
      = .error (decrement leakHeap 0) ∧
    (leakHeap 0).disposals = 0 ∧
    ((decrement leakHeap 0) 0).count = 0 ∧
    ((decrement leakHeap 0) 0).disposals = 1 := by
  refine ⟨rfl, by decide, by decide, by decide⟩

/-- The concrete trace used by the C5 witness: copy-construct a second
handle, then destroy both handles. -/
theorem counting_chain : Steps initWorld witWorld3 :=
  Relation.ReflTransGen.head
    (Step.copyCon initWorld.heap initWorld.ptrs (⟨some 0⟩ : RetainPtr)
      (List.mem_singleton.mpr rfl))
    (Relation.ReflTransGen.head
      (Step.destroy witWorld1.heap [] (⟨some 0⟩ : RetainPtr)
        [(⟨some 0⟩ : RetainPtr)])
      (Relation.ReflTransGen.single
        (Step.destroy witWorld2.heap [] (⟨some 0⟩ : RetainPtr) [])))

/-- C5: with the default traits and counter mixin, the count starts at
1 at construction; a decrement disposes exactly when it observes the
1-to-0 transition; and after every sequence of default constructions,
copy constructions, copy assignments and destructions of handles, the
count of every cell equals the number of currently-alive handles owning
it, the count is never negative, disposal happens at most once, and
once the created object has no owner left it has been disposed exactly
once. -/
theorem retain_ptr_counting_invariant :
    (initWorld.heap 0).count = 1 ∧
    (∀ (h : Heap) (a : Nat), ((decrement h a) a).disposals
        = (h a).disposals + (if (h a).count = 1 then 1 else 0)) ∧
    (∀ w, Steps initWorld w →
      (∀ a, (w.heap a).count = (owners w.ptrs a : Int) ∧
        0 ≤ (w.heap a).count ∧ (w.heap a).disposals ≤ 1) ∧
      (owners w.ptrs 0 = 0 → (w.heap 0).disposals = 1)) := by
  refine ⟨by decide, ?_, ?_⟩
  · intro h a
    rw [decrement_apply_self]
    by_cases hz : (h a).count - 1 = 0
    · have h1 : (h a).count = 1 := by omega
      rw [if_pos hz, if_pos h1]
      rfl
    · have h1 : ¬((h a).count = 1) := by omega
      rw [if_neg hz, if_neg h1]
      rfl
  · intro w hw
    obtain ⟨hinv, hcr⟩ := inv_steps w hw
    constructor
    · intro a
      obtain ⟨hc, hd, _⟩ := hinv a
      refine ⟨hc, ?_, hd⟩
      rw [hc]
      exact Int.natCast_nonneg _
    · intro h0
      rcases hcr with hcr | hcr
      · omega
      · exact hcr

theorem retain_ptr_counting_invariant_witness :
    Steps initWorld witWorld3 ∧
    (witWorld3.heap 0).count = (owners witWorld3.ptrs 0 : Int) ∧
    (witWorld3.heap 0).disposals = 1 := by
  have hres := retain_ptr_counting_invariant.2.2 witWorld3 counting_chain
  exact ⟨counting_chain, (hres.1 0).1, hres.2 (by decide)⟩

end RP
